import Mathlib

/-!
Verification development for a JaCoCo coverage-report parser and Java test
scaffold generator.  The first half of this file is a shallow embedding of
the program: the XML document model used by the parser, the gap-collection
and total-computation logic of `JaCoCoParser.parse_report`, the helpers
`_get_coverage_percent` and `_get_uncovered_lines`, and the generator
functions `generate_tests`, `_generate_tests_for_method`,
`_generate_test_code`, `_get_test_class_name` and `format_test_file`.
Machine floats are modelled by exact rationals; Python exceptions are
modelled with `Except`.  The second half states and proves theorems about
this embedding.
-/

/-- One element of a parsed XML document: a tag name, an ordered attribute
list and an ordered list of child elements.  Text nodes play no role in the
program and are not modelled. -/
inductive XMLElem where
  | elem (tag : String) (attrs : List (String × String)) (children : List XMLElem)

/-- Tag name of an element. -/
def XMLElem.tag : XMLElem → String
  | .elem t _ _ => t

/-- Attribute list of an element. -/
def XMLElem.attrs : XMLElem → List (String × String)
  | .elem _ a _ => a

/-- Child elements, in document order. -/
def XMLElem.children : XMLElem → List XMLElem
  | .elem _ _ c => c

mutual
/-- All proper descendants of an element in document (preorder) order;
this is the order ElementTree's `findall(".//tag")` enumerates matches. -/
def XMLElem.descendants : XMLElem → List XMLElem
  | .elem _ _ cs => descendantsList cs
/-- Descendant enumeration of a forest: each root followed by its own
descendants, left to right. -/
def descendantsList : List XMLElem → List XMLElem
  | [] => []
  | c :: cs => c :: c.descendants ++ descendantsList cs
end

/-- Lookup of an attribute value, `element.get(key)` in the source:
`none` when the attribute is absent. -/
def attrOf (e : XMLElem) (k : String) : Option String :=
  e.attrs.lookup k

/-- Attribute lookup with a default, `element.get(key, d)` in the source. -/
def attrD (e : XMLElem) (k d : String) : String :=
  (attrOf e k).getD d

/-- Value of a decimal digit string, most significant digit first. -/
def charsToNat : List Char → Nat → Nat
  | [], acc => acc
  | c :: cs, acc => charsToNat cs (acc * 10 + (c.toNat - 48))

/-- Numeric value of a non-empty all-digit string, `0` otherwise. -/
def strToNatD (s : String) : Nat :=
  if s.data ≠ [] ∧ s.data.all Char.isDigit then charsToNat s.data 0 else 0

/-- Numeric attribute, `int(element.get(key, 0))` in the source; counter
and line attributes in a JaCoCo report are decimal numerals. -/
def attrNat (e : XMLElem) (k : String) : Nat :=
  match attrOf e k with
  | some v => strToNatD v
  | none => 0

/-- Direct children with a given tag, `element.findall(tag)` in the source. -/
def childrenTag (e : XMLElem) (t : String) : List XMLElem :=
  e.children.filter (fun c => c.tag == t)

/-- Descendants with a given tag, `element.findall(".//tag")` in the source. -/
def findAllDesc (e : XMLElem) (t : String) : List XMLElem :=
  e.descendants.filter (fun c => c.tag == t)

/-- Value of the `covered` attribute of a counter element. -/
def coveredOf (c : XMLElem) : Nat := attrNat c "covered"

/-- Value of the `missed` attribute of a counter element. -/
def missedOf (c : XMLElem) : Nat := attrNat c "missed"

/-- Sum `covered + missed` of a counter element. -/
def totalOf (c : XMLElem) : Nat := coveredOf c + missedOf c

/-- Percentage `(covered / total) * 100` of a counter element, as an exact
rational. -/
def pctOf (c : XMLElem) : ℚ :=
  ((coveredOf c : ℚ) / (totalOf c : ℚ)) * 100

/-- Python `str.upper` restricted to ASCII, as used on the counter kind. -/
def pyUpper (s : String) : String :=
  String.mk (s.data.map Char.toUpper)

/-- Python `str.capitalize`: the first character is upper-cased and every
remaining character is lower-cased. -/
def pyCapitalize (s : String) : String :=
  match s.data with
  | [] => ""
  | c :: cs => String.mk (Char.toUpper c :: cs.map Char.toLower)

/-- Python `s.split(sep)[0]` for a one-character separator: the prefix of
`s` before the first occurrence of `a` (all of `s` when `a` is absent). -/
def takeUntilChar (s : String) (a : Char) : String :=
  String.mk (s.data.takeWhile (fun c => c ≠ a))

/-- Python `s.split(".")[-1]`: the suffix of `s` after the last dot (all of
`s` when no dot occurs). -/
def lastDotSegment (s : String) : String :=
  String.mk ((s.data.reverse.takeWhile (fun c => c ≠ '.')).reverse)

/-- Python `s.replace(a, b)` for one-character pattern and replacement. -/
def pyReplaceChar (s : String) (a b : Char) : String :=
  String.mk (s.data.map (fun c => if c = a then b else c))

/-- The loop body of `JaCoCoParser._get_coverage_percent`: scan counter
elements in order and return the percentage of the first one whose `type`
attribute equals `k` and whose total is positive; `0` when none qualifies. -/
def pctLoop (k : String) : List XMLElem → ℚ
  | [] => 0
  | c :: cs =>
      if attrOf c "type" = some k ∧ 0 < totalOf c then pctOf c else pctLoop k cs

/-- Embedding of `JaCoCoParser._get_coverage_percent(element, counter_type)`. -/
def getCoveragePercent (e : XMLElem) (kind : String) : ℚ :=
  pctLoop (pyUpper kind) (childrenTag e "counter")

/-- Embedding of `JaCoCoParser._get_uncovered_lines(method_element)`: the
`nr` attributes of `line` children whose `ci` attribute is zero. -/
def uncoveredLinesOf (m : XMLElem) : List Nat :=
  (childrenTag m "line").filterMap
    (fun l => if attrNat l "ci" = 0 then some (attrNat l "nr") else none)

/-- Embedding of the `CoverageGap` dataclass.  Percentages are exact
rationals; `method_name` is `Optional[str]` in the source. -/
structure CoverageGap where
  class_name : String
  method_name : Option String
  package_name : String
  line_coverage : ℚ
  branch_coverage : ℚ
  uncovered_lines : List Nat
deriving DecidableEq

/-- Embedding of the `CoverageReport` dataclass. -/
structure CoverageReport where
  total_line_coverage : ℚ
  total_branch_coverage : ℚ
  gaps : List CoverageGap
deriving DecidableEq

/-- Sort order used on gaps: Python's `gaps.sort(key=lambda g: g.line_coverage)`
orders ascending by line coverage. -/
def gapLE (a b : CoverageGap) : Prop :=
  a.line_coverage ≤ b.line_coverage

instance : DecidableRel gapLE :=
  fun a b => inferInstanceAs (Decidable (a.line_coverage ≤ b.line_coverage))

instance : IsTotal CoverageGap gapLE :=
  ⟨fun a b => le_total a.line_coverage b.line_coverage⟩

instance : IsTrans CoverageGap gapLE :=
  ⟨fun _ _ _ h h2 => le_trans h h2⟩

/-- The gap record built by `parse_report` for one method element `m` of a
class element `cls` inside a package named `pname`. -/
def gapOf (pname : String) (cls m : XMLElem) : CoverageGap :=
  { class_name := pyReplaceChar (pname ++ "." ++ attrD cls "name" "") '/' '.'
  , method_name := some (attrD m "name" "" ++ attrD m "desc" "")
  , package_name := pname
  , line_coverage := getCoveragePercent m "line"
  , branch_coverage := getCoveragePercent m "branch"
  , uncovered_lines := uncoveredLinesOf m }

/-- The gap list built by the package/class/method traversal of
`parse_report`, in discovery order: a method yields a gap exactly when its
line coverage is below 100. -/
def collectGaps (root : XMLElem) : List CoverageGap :=
  (findAllDesc root "package").flatMap (fun pkg =>
    (findAllDesc pkg "class").flatMap (fun cls =>
      (findAllDesc cls "method").filterMap (fun m =>
        if getCoveragePercent m "line" < 100 then
          some (gapOf (attrD pkg "name" "") cls m)
        else none)))

/-- All class elements in the order `parse_report` visits them. -/
def classList (root : XMLElem) : List XMLElem :=
  (findAllDesc root "package").flatMap (fun pkg => findAllDesc pkg "class")

/-- The running maximum of class-level percentages of the given counter
kind, starting from `0.0`, as accumulated by `parse_report`. -/
def classMax (root : XMLElem) (kind : String) : ℚ :=
  (classList root).foldl
    (fun acc cls =>
      let p := getCoveragePercent cls kind
      if acc < p then p else acc) 0

/-- One step of the final counter loop of `parse_report`: a counter of type
`LINE` (resp. `BRANCH`) with positive total overwrites the running line
(resp. branch) total with its own percentage. -/
def overrideStep (st : ℚ × ℚ) (c : XMLElem) : ℚ × ℚ :=
  let t := attrD c "type" ""
  if t = "LINE" then
    (if 0 < totalOf c then (pctOf c, st.2) else st)
  else if t = "BRANCH" then
    (if 0 < totalOf c then (st.1, pctOf c) else st)
  else st

/-- All counter elements of the whole document in document order,
`root.findall(".//counter")` in the source. -/
def allCounters (root : XMLElem) : List XMLElem :=
  findAllDesc root "counter"

/-- Embedding of `JaCoCoParser.parse_report` applied to the root element of
an already-parsed document: class-level maxima seed the totals, the global
counter loop may overwrite them, and the gaps are stable-sorted ascending
by line coverage. -/
def parse_report (root : XMLElem) : CoverageReport :=
  let st := (allCounters root).foldl overrideStep
    (classMax root "line", classMax root "branch")
  { total_line_coverage := st.1
  , total_branch_coverage := st.2
  , gaps := (collectGaps root).insertionSort gapLE }

/-- Embedding of the `GeneratedTest` dataclass. -/
structure GeneratedTest where
  class_name : String
  test_method_name : String
  test_code : String
  target_class : String
  target_method : String
deriving DecidableEq

/-- Embedding of `JavaTestGenerator._get_test_class_name`. -/
def testClassNameOf (target : String) : String :=
  lastDotSegment target ++ "Test"

/-- Variant-A test body produced by `_generate_test_code` for index 0, with
the bare method name `m` and the simple class name `cn` substituted. -/
def genBodyA (m cn : String) : String :=
  "    @Test\n    public void test" ++ pyCapitalize m ++ "Case1() \x7b\n        " ++
    cn ++ " instance = new " ++ cn ++ "();\n        assertNotNull(instance);\n        \n        instance." ++
    m ++ "();\n        \n        assertEquals(instance, instance);\n    \x7d"

/-- Variant-B test body produced by `_generate_test_code` for index 1. -/
def genBodyB (m cn : String) : String :=
  "    @Test\n    public void test" ++ pyCapitalize m ++ "Case2() \x7b\n        " ++
    cn ++ " instance = new " ++ cn ++ "();\n        \n        assertDoesNotThrow(() -> \x7b\n            instance." ++
    m ++ "();\n        \x7d);\n        \n        assertNotNull(instance);\n    \x7d"

/-- Variant-C test body produced by `_generate_test_code` for every index
at least 2. -/
def genBodyC (m cn : String) : String :=
  "    @Test\n    public void test" ++ pyCapitalize m ++ "Case3() \x7b\n        " ++
    cn ++ " instance = new " ++ cn ++ "();\n        instance." ++
    m ++ "();\n        \n        Object result = instance;\n        assertNotNull(result);\n        assertTrue(result instanceof " ++
    cn ++ ");\n    \x7d"

/-- Embedding of `JavaTestGenerator._generate_test_code(gap, test_index)`.
The source reads `gap.method_name`, which is non-`None` whenever this code
runs; `mname` is that string. -/
def generate_test_code (gap : CoverageGap) (mname : String) (test_index : Nat) : String :=
  let method_name := takeUntilChar mname '('
  let class_simple_name := lastDotSegment gap.class_name
  if test_index = 0 then genBodyA method_name class_simple_name
  else if test_index = 1 then genBodyB method_name class_simple_name
  else genBodyC method_name class_simple_name

/-- The `GeneratedTest` record built by `_generate_tests_for_method` at
loop index `i` for a gap whose `method_name` is `mname`. -/
def mkTest (gap : CoverageGap) (mname : String) (i : Nat) : GeneratedTest :=
  { class_name := testClassNameOf gap.class_name
  , test_method_name :=
      "test" ++ pyCapitalize (takeUntilChar mname '(') ++ "_Case" ++ toString (i + 1)
  , test_code := generate_test_code gap mname i
  , target_class := gap.class_name
  , target_method := mname }

/-- The list built by the loop of `_generate_tests_for_method` when the
gap's `method_name` is present; Python's `range(n)` is empty for `n ≤ 0`. -/
def testsFor (gap : CoverageGap) (mname : String) (numTests : Int) : List GeneratedTest :=
  (List.range numTests.toNat).map (mkTest gap mname)

/-- Embedding of `_generate_tests_for_method(gap, num_tests)`.  When the
gap's `method_name` is `None` and the loop body runs at least once, the
attribute access `gap.method_name.split` raises; this is the `error` case. -/
def genForMethod (gap : CoverageGap) (numTests : Int) : Except Unit (List GeneratedTest) :=
  match gap.method_name with
  | some s => .ok (testsFor gap s numTests)
  | none => if numTests.toNat = 0 then .ok [] else .error ()

/-- The accumulation loop of `generate_tests` over the capped gap list;
an exception in any iteration aborts the whole call. -/
def genLoop (numTests : Int) : List CoverageGap → Except Unit (List GeneratedTest)
  | [] => .ok []
  | g :: gs => do
    let ts ← genForMethod g numTests
    let rest ← genLoop numTests gs
    pure (ts ++ rest)

/-- Embedding of `JavaTestGenerator.generate_tests(gaps, max_tests_per_gap)`:
only the first 10 gaps are considered. -/
def generate_tests (gaps : List CoverageGap) (maxTestsPerGap : Int) : Except Unit (List GeneratedTest) :=
  genLoop maxTestsPerGap (gaps.take 10)

/-- Keys of a sequence in order of first occurrence, dropping later
duplicates; this is the iteration order of a Python dict built by
successive insertions. -/
def firstOccur : List String → List String
  | [] => []
  | k :: ks => k :: (firstOccur ks).filter (fun x => x != k)

/-- Embedding of the dict comprehension
`{t.test_method_name: t for t in tests}` of `format_test_file`: one
survivor per method name, iterated in order of first insertion of the
name, each survivor being the last test carrying that name. -/
def pyDedupe (tests : List GeneratedTest) : List GeneratedTest :=
  (firstOccur (tests.map (fun t => t.test_method_name))).filterMap
    (fun k => tests.reverse.find? (fun t => t.test_method_name == k))

/-- Fixed first part of the document template of `format_test_file`, up to
and including the blank-ish line before the test bodies. -/
def fileHeader (package_name test_class_name : String) : String :=
  "package " ++ package_name ++ ".test;\n\nimport org.junit.jupiter.api.Test;\nimport org.junit.jupiter.api.BeforeEach;\nimport static org.junit.jupiter.api.Assertions.*;\nimport " ++
    package_name ++ ".*;\n\npublic class " ++ test_class_name ++
    " \x7b\n    \n    private Object instance;\n    \n    @BeforeEach\n    public void setUp() \x7b\n        // Initialize test fixtures\n    \x7d\n    \n"

/-- Fixed tail of the document template of `format_test_file`. -/
def fileFooter : String := "\n\x7d\n"

/-- Embedding of `JavaTestGenerator.format_test_file`. -/
def format_test_file (test_class_name package_name : String) (tests : List GeneratedTest) : String :=
  let test_methods := String.intercalate "\n\n" ((pyDedupe tests).map (fun t => t.test_code))
  fileHeader package_name test_class_name ++ test_methods ++ fileFooter

/-- Convenience builder for a counter element with the given kind and
`covered`/`missed` attribute strings. -/
def mkCounter (t cov mis : String) : XMLElem :=
  .elem "counter" [("type", t), ("covered", cov), ("missed", mis)] []

/-- Counter `LINE covered=1 missed=1` of the first concrete document. -/
def counterR0 : XMLElem := mkCounter "LINE" "1" "1"

/-- Method element `m()V` of the first concrete document. -/
def methodR0 : XMLElem :=
  .elem "method" [("name", "m"), ("desc", "()V")] [counterR0]

/-- Class element `C` of the first concrete document; it carries no counter
of its own. -/
def classR0 : XMLElem := .elem "class" [("name", "C")] [methodR0]

/-- Package element `p` of the first concrete document. -/
def packageR0 : XMLElem := .elem "package" [("name", "p")] [classR0]

/-- Concrete document: one package `p`, one class `C` carrying no counter
of its own, one method `m()V` whose only counter is `LINE covered=1
missed=1`.  There is no counter among the direct children of the root. -/
def report0 : XMLElem := .elem "report" [("name", "r")] [packageR0]

/-- Counter `LINE covered=3 missed=2` of the second concrete document. -/
def counterAcme : XMLElem := mkCounter "LINE" "3" "2"

/-- Method element `render()V` of the second concrete document. -/
def methodAcme : XMLElem :=
  .elem "method" [("name", "render"), ("desc", "()V")] [counterAcme]

/-- Class element `Widget` of the second concrete document. -/
def classAcme : XMLElem := .elem "class" [("name", "Widget")] [methodAcme]

/-- Package element `com/acme` of the second concrete document. -/
def packageAcme : XMLElem :=
  .elem "package" [("name", "com/acme")] [classAcme]

/-- Concrete document taken from the specification's own example: package
`com/acme`, class `Widget`, method `render()V` with `LINE covered=3
missed=2`. -/
def reportAcme : XMLElem := .elem "report" [("name", "r")] [packageAcme]

/-- The gap the parser extracts from `reportAcme`: raw package name,
normalized full class name, line coverage `3 / 5 * 100`. -/
def gapAcme : CoverageGap :=
  { class_name := "com.acme.Widget"
  , method_name := some "render()V"
  , package_name := "com/acme"
  , line_coverage := 60
  , branch_coverage := 0
  , uncovered_lines := [] }

/-- A well-formed gap whose `method_name` is absent, as the dataclass's
`Optional[str]` field allows. -/
def gapNoMethod : CoverageGap :=
  { class_name := "com.acme.Widget"
  , method_name := none
  , package_name := "com.acme"
  , line_coverage := 50
  , branch_coverage := 0
  , uncovered_lines := [] }

/-- A gap whose method name has an upper-case letter after its first
character. -/
def gapGetValue : CoverageGap :=
  { class_name := "com.acme.Widget"
  , method_name := some "getValue()V"
  , package_name := "com.acme"
  , line_coverage := 50
  , branch_coverage := 0
  , uncovered_lines := [2] }

/-- A method element carrying no counter at all. -/
def methodNoCounters : XMLElem :=
  .elem "method" [("name", "m"), ("desc", "()V")] []

/-- Counters that are direct children of the document root; the
specification's phrase `top-level summary counters` can only mean these. -/
def topLevelCounters (root : XMLElem) : List XMLElem :=
  childrenTag root "counter"

/-- Last element of a counter list whose `type` attribute (with the empty
string as default) equals `k` and whose total is positive; the final
counter loop of `parse_report` leaves exactly this counter's percentage in
the total. -/
def lastQualified (k : String) : List XMLElem → Option XMLElem
  | [] => none
  | c :: cs =>
      match lastQualified k cs with
      | some d => some d
      | none => if attrD c "type" "" = k ∧ 0 < totalOf c then some c else none

/-- Upper-case only the first character of a string, leaving the rest
unchanged.  Spec-side definition: claim C2 describes capitalization as
changing nothing but the first character. -/
def upperFirst (s : String) : String :=
  match s.data with
  | [] => ""
  | c :: cs => String.mk (Char.toUpper c :: cs)

/-- Test method name as claim C2 words it: `test` + bare method name with
only its first character upper-cased + `_Case` + the 1-based index.
Spec-side definition, to be compared with the code's `mkTest`. -/
def specTestMethodName (sig : String) (i : Nat) : String :=
  "test" ++ upperFirst (takeUntilChar sig '(') ++ "_Case" ++ toString (i + 1)

theorem pctLoop_zero (k : String) (cs : List XMLElem)
    (h : ∀ c ∈ cs, attrOf c "type" = some k → totalOf c = 0) :
    pctLoop k cs = 0 := by
  induction cs with
  | nil => rfl
  | cons c cs ih =>
      have hc := h c (by simp)
      rw [pctLoop]
      rw [if_neg]
      · exact ih (fun d hd => h d (by simp [hd]))
      · rintro ⟨h1, h2⟩
        rw [hc h1] at h2
        exact lt_irrefl 0 h2

theorem pctLoop_found (k : String) (cs : List XMLElem)
    (h : ∃ c ∈ cs, attrOf c "type" = some k ∧ 0 < totalOf c) :
    ∃ c ∈ cs, attrOf c "type" = some k ∧ 0 < totalOf c ∧ pctLoop k cs = pctOf c := by
  induction cs with
  | nil => simp at h
  | cons c cs ih =>
      by_cases hc : attrOf c "type" = some k ∧ 0 < totalOf c
      · exact ⟨c, by simp, hc.1, hc.2, by rw [pctLoop, if_pos hc]⟩
      · have h' : ∃ d ∈ cs, attrOf d "type" = some k ∧ 0 < totalOf d := by
          rcases h with ⟨d, hd, h1, h2⟩
          rcases List.mem_cons.mp hd with rfl | hd'
          · exact absurd ⟨h1, h2⟩ hc
          · exact ⟨d, hd', h1, h2⟩
        rcases ih h' with ⟨d, hd, h1, h2, h3⟩
        exact ⟨d, by simp [hd], h1, h2, by rw [pctLoop, if_neg hc]; exact h3⟩

/-- C6: for a node and a counter kind, the computed percentage is 0 when no
counter of that kind is present, 0 when every present counter of that kind
has `covered + missed = 0`, and otherwise equals
`covered / (covered + missed) * 100` of a counter of that kind with
positive total.  Totality (no NaN, no division error) holds by type: the
result is always a rational. -/
theorem c6_percentage_rule (e : XMLElem) (kind : String) :
    ((∀ c ∈ childrenTag e "counter", attrOf c "type" ≠ some (pyUpper kind)) →
        getCoveragePercent e kind = 0)
    ∧ ((∀ c ∈ childrenTag e "counter", attrOf c "type" = some (pyUpper kind) → totalOf c = 0) →
        getCoveragePercent e kind = 0)
    ∧ ((∃ c ∈ childrenTag e "counter", attrOf c "type" = some (pyUpper kind) ∧ 0 < totalOf c) →
        ∃ c ∈ childrenTag e "counter", attrOf c "type" = some (pyUpper kind) ∧ 0 < totalOf c ∧
          getCoveragePercent e kind =
            ((coveredOf c : ℚ) / ((coveredOf c : ℚ) + (missedOf c : ℚ))) * 100) := by
  refine ⟨fun h => ?_, fun h => ?_, fun h => ?_⟩
  · exact pctLoop_zero _ _ (fun c hc h1 => absurd h1 (h c hc))
  · exact pctLoop_zero _ _ h
  · rcases pctLoop_found (pyUpper kind) (childrenTag e "counter") h with ⟨c, hc, h1, h2, h3⟩
    refine ⟨c, hc, h1, h2, ?_⟩
    rw [getCoveragePercent, h3, pctOf, totalOf]
    push_cast
    rfl

/-- Witness for C6 at a concrete method element without counters. -/
theorem c6_percentage_rule_witness :
    (∀ c ∈ childrenTag methodNoCounters "counter", attrOf c "type" ≠ some (pyUpper "line"))
    ∧ getCoveragePercent methodNoCounters "line" = 0 :=
  ⟨by decide, (c6_percentage_rule methodNoCounters "line").1 (by decide)⟩

/-- C7 (code bug): test generation is not total.  A well-formed gap whose
`methodSignature` is absent makes `generate_tests` raise (the `error`
case) as soon as one test per gap is requested, while the degenerate
inputs of the claim (no gaps, zero tests per gap) do yield empty output. -/
theorem c7_generation_not_total :
    generate_tests [gapNoMethod] 1 = .error ()
    ∧ generate_tests ([] : List CoverageGap) 3 = .ok []
    ∧ generate_tests [gapGetValue] 0 = .ok [] :=
  ⟨rfl, rfl, rfl⟩

theorem genLoop_ok (n : Int) (gs : List CoverageGap)
    (h : ∀ g ∈ gs, g.method_name.isSome) :
    genLoop n gs = .ok (gs.flatMap (fun g => testsFor g (g.method_name.getD "") n)) := by
  induction gs with
  | nil => rfl
  | cons g gs ih =>
      rcases Option.isSome_iff_exists.mp (h g (by simp)) with ⟨s, hs⟩
      have ih' := ih (fun d hd => h d (by simp [hd]))
      rw [genLoop]
      rw [genForMethod, hs, ih']
      simp only [List.flatMap_cons, hs, Option.getD_some]
      rfl

theorem genLoop_mem (n : Int) (gs : List CoverageGap) (ts : List GeneratedTest)
    (hok : genLoop n gs = .ok ts) (t : GeneratedTest) (ht : t ∈ ts) :
    ∃ g ∈ gs, ∃ s, g.method_name = some s ∧ ∃ i < n.toNat, t = mkTest g s i := by
  induction gs generalizing ts with
  | nil =>
      rw [genLoop] at hok
      cases hok
      simp at ht
  | cons g gs ih =>
      rw [genLoop] at hok
      cases h1 : genForMethod g n with
      | error e => rw [h1] at hok; cases hok
      | ok ts1 =>
          rw [h1] at hok
          cases h2 : genLoop n gs with
          | error e => rw [h2] at hok; cases hok
          | ok ts2 =>
              rw [h2] at hok
              cases hok
              rcases List.mem_append.mp ht with hta | htb
              · cases hm : g.method_name with
                | some s =>
                    rw [genForMethod, hm] at h1
                    cases h1
                    rw [testsFor] at hta
                    rcases List.mem_map.mp hta with ⟨i, hi, hEq⟩
                    exact ⟨g, by simp, s, hm, i, List.mem_range.mp hi, hEq.symm⟩
                | none =>
                    rw [genForMethod, hm] at h1
                    by_cases hz : n.toNat = 0
                    · rw [if_pos hz] at h1
                      cases h1
                      simp at hta
                    · rw [if_neg hz] at h1
                      cases h1
              · rcases ih ts2 h2 htb with ⟨d, hd, s, hs, i, hi, rfl⟩
                exact ⟨d, by simp [hd], s, hs, i, hi, rfl⟩

/-- C2 (amended): every test method name emitted by `generate_tests` is
`test` + the bare method name processed by Python `str.capitalize` (first
character upper-cased, **all remaining characters lower-cased**) + `_Case`
+ the 1-based case index.  The claim's reading, in which the remaining
characters stay unchanged, is refuted by `c2_counterexample`. -/
theorem c2_test_method_name (gaps : List CoverageGap) (max : Int)
    (ts : List GeneratedTest) (hok : generate_tests gaps max = .ok ts)
    (t : GeneratedTest) (ht : t ∈ ts) :
    ∃ g ∈ gaps.take 10, ∃ s, g.method_name = some s ∧ ∃ i < max.toNat,
      t.test_method_name =
        "test" ++ pyCapitalize (takeUntilChar s '(') ++ "_Case" ++ toString (i + 1) := by
  rcases genLoop_mem max (gaps.take 10) ts hok t ht with ⟨g, hg, s, hs, i, hi, rfl⟩
  exact ⟨g, hg, s, hs, i, hi, rfl⟩

/-- Witness for C2 (amended) at a concrete call. -/
theorem c2_test_method_name_witness :
    generate_tests [gapGetValue] 1 = .ok [mkTest gapGetValue "getValue()V" 0]
    ∧ mkTest gapGetValue "getValue()V" 0 ∈ [mkTest gapGetValue "getValue()V" 0]
    ∧ ∃ g ∈ [gapGetValue].take 10, ∃ s, g.method_name = some s ∧ ∃ i < (1 : Int).toNat,
        (mkTest gapGetValue "getValue()V" 0).test_method_name =
          "test" ++ pyCapitalize (takeUntilChar s '(') ++ "_Case" ++ toString (i + 1) :=
  ⟨rfl, by simp,
    c2_test_method_name [gapGetValue] 1 [mkTest gapGetValue "getValue()V" 0] rfl
      (mkTest gapGetValue "getValue()V" 0) (by simp)⟩

/-- C2 (counterexample): for the method signature `getValue()V` the code
produces `testGetvalue_Case1` — Python's `capitalize` lower-cases the tail
— while the claim's format requires `testGetValue_Case1`. -/
theorem c2_counterexample :
    ((generate_tests [gapGetValue] 1).toOption.getD []).map (fun t => t.test_method_name)
        = ["testGetvalue_Case1"]
    ∧ specTestMethodName "getValue()V" 0 = "testGetValue_Case1"
    ∧ ("testGetvalue_Case1" : String) ≠ "testGetValue_Case1" :=
  ⟨rfl, rfl, by decide⟩

/-- C4 (amended): when each of the first 10 gaps carries a method
signature, `generate_tests` succeeds, considers exactly the first 10 gaps
of the input in their given order, and produces
`min(10, len(gaps)) * maxTestsPerGap` tests.  Without that proviso the
claim's universal statement fails: see `c4_counterexample`. -/
theorem c4_generate_tests_count (gaps : List CoverageGap) (max : Int)
    (h : ∀ g ∈ gaps.take 10, g.method_name.isSome) :
    ∃ ts, generate_tests gaps max = .ok ts
      ∧ ts = (gaps.take 10).flatMap (fun g => testsFor g (g.method_name.getD "") max)
      ∧ ts.length = min 10 gaps.length * max.toNat := by
  refine ⟨_, genLoop_ok max (gaps.take 10) h, rfl, ?_⟩
  have hlen : ∀ (l : List CoverageGap),
      (l.flatMap (fun g => testsFor g (g.method_name.getD "") max)).length
        = l.length * max.toNat := by
    intro l
    induction l with
    | nil => simp
    | cons g l ih =>
        simp only [List.flatMap_cons, List.length_append, ih, List.length_cons]
        simp [testsFor, Nat.succ_mul, Nat.add_comm]
  rw [hlen, List.length_take]

/-- Witness for C4 (amended) at a concrete call. -/
theorem c4_generate_tests_count_witness :
    (∀ g ∈ [gapGetValue].take 10, g.method_name.isSome)
    ∧ ∃ ts, generate_tests [gapGetValue] 2 = .ok ts
        ∧ ts = ([gapGetValue].take 10).flatMap
            (fun g => testsFor g (g.method_name.getD "") 2)
        ∧ ts.length = min 10 [gapGetValue].length * (2 : Int).toNat :=
  ⟨by decide, c4_generate_tests_count [gapGetValue] 2 (by decide)⟩

/-- C4 (counterexample): on a single gap without a method signature and
`maxTestsPerGap = 1` the call raises instead of producing
`min(10, 1) * 1 = 1` tests, so the claim does not hold for every gap
list. -/
theorem c4_counterexample :
    generate_tests [gapNoMethod] 1 = .error () := rfl

theorem pct_acme_line : getCoveragePercent methodAcme "line" = 60 := by
  have h1 : getCoveragePercent methodAcme "line" = pctOf counterAcme := rfl
  have h2 : coveredOf counterAcme = 3 := rfl
  have h3 : totalOf counterAcme = 5 := rfl
  rw [h1, pctOf, h2, h3]
  norm_num

theorem pct_acme_branch : getCoveragePercent methodAcme "branch" = 0 := rfl

theorem collect_acme : collectGaps reportAcme = [gapAcme] := by
  have h60 : getCoveragePercent methodAcme "line" < 100 := by
    rw [pct_acme_line]; norm_num
  have step1 : collectGaps reportAcme
      = (List.filterMap (fun m => if getCoveragePercent m "line" < 100
          then some (gapOf "com/acme" classAcme m) else none) [methodAcme] ++ []) ++ [] := rfl
  rw [step1, List.append_nil, List.append_nil, List.filterMap_cons, if_pos h60]
  have hg : gapOf "com/acme" classAcme methodAcme = gapAcme := by
    rw [gapOf, gapAcme]
    rw [pct_acme_line, pct_acme_branch]
    rfl
  rw [hg]
  rfl

theorem gaps_acme : (parse_report reportAcme).gaps = [gapAcme] := by
  have h : (parse_report reportAcme).gaps = (collectGaps reportAcme).insertionSort gapLE := rfl
  rw [h, collect_acme]
  rfl

theorem overrideStep_fst (st : ℚ × ℚ) (c : XMLElem) :
    (overrideStep st c).1
      = if attrD c "type" "" = "LINE" ∧ 0 < totalOf c then pctOf c else st.1 := by
  rw [overrideStep]
  by_cases h1 : attrD c "type" "" = "LINE"
  · by_cases h2 : 0 < totalOf c
    · simp [h1, h2]
    · simp [h1, h2]
  · by_cases h3 : attrD c "type" "" = "BRANCH"
    · by_cases h2 : 0 < totalOf c
      · simp [h1, h3, h2]
      · simp [h1, h3, h2]
    · simp [h1, h3]

theorem overrideStep_snd (st : ℚ × ℚ) (c : XMLElem) :
    (overrideStep st c).2
      = if attrD c "type" "" = "BRANCH" ∧ 0 < totalOf c then pctOf c else st.2 := by
  rw [overrideStep]
  by_cases h1 : attrD c "type" "" = "LINE"
  · have h3 : attrD c "type" "" ≠ "BRANCH" := by rw [h1]; decide
    by_cases h2 : 0 < totalOf c
    · simp [h1, h3, h2]
    · simp [h1, h3, h2]
  · by_cases h3 : attrD c "type" "" = "BRANCH"
    · by_cases h2 : 0 < totalOf c
      · simp [h1, h3, h2]
      · simp [h1, h3, h2]
    · simp [h1, h3]

theorem foldl_override_fst (cs : List XMLElem) :
    ∀ st : ℚ × ℚ, (cs.foldl overrideStep st).1
      = match lastQualified "LINE" cs with
        | some c => pctOf c
        | none => st.1 := by
  induction cs with
  | nil => intro st; rfl
  | cons c cs ih =>
      intro st
      rw [List.foldl_cons, ih (overrideStep st c), lastQualified]
      cases hq : lastQualified "LINE" cs with
      | some d => rfl
      | none =>
          rw [overrideStep_fst]
          by_cases hc : attrD c "type" "" = "LINE" ∧ 0 < totalOf c
          · rw [if_pos hc, if_pos hc]
          · rw [if_neg hc, if_neg hc]

theorem foldl_override_snd (cs : List XMLElem) :
    ∀ st : ℚ × ℚ, (cs.foldl overrideStep st).2
      = match lastQualified "BRANCH" cs with
        | some c => pctOf c
        | none => st.2 := by
  induction cs with
  | nil => intro st; rfl
  | cons c cs ih =>
      intro st
      rw [List.foldl_cons, ih (overrideStep st c), lastQualified]
      cases hq : lastQualified "BRANCH" cs with
      | some d => rfl
      | none =>
          rw [overrideStep_snd]
          by_cases hc : attrD c "type" "" = "BRANCH" ∧ 0 < totalOf c
          · rw [if_pos hc, if_pos hc]
          · rw [if_neg hc, if_neg hc]

/-- C1 (amended): the parsed totals do not always come from top-level
summary counters or from the class-level maximum as claimed; the final
counter loop scans **every** counter of the document in document order, so
the total equals the percentage of the last counter of the kind (anywhere
in the tree) with positive total, and only falls back to the class-level
maximum when no such counter exists anywhere.  `c1_counterexample` refutes
the claim as stated. -/
theorem c1_totals (root : XMLElem) :
    ((parse_report root).total_line_coverage
        = match lastQualified "LINE" (allCounters root) with
          | some c => pctOf c
          | none => classMax root "line")
    ∧ ((parse_report root).total_branch_coverage
        = match lastQualified "BRANCH" (allCounters root) with
          | some c => pctOf c
          | none => classMax root "branch") := by
  constructor
  · have h : (parse_report root).total_line_coverage
        = ((allCounters root).foldl overrideStep
            (classMax root "line", classMax root "branch")).1 := rfl
    rw [h, foldl_override_fst]
  · have h : (parse_report root).total_branch_coverage
        = ((allCounters root).foldl overrideStep
            (classMax root "line", classMax root "branch")).2 := rfl
    rw [h, foldl_override_snd]

/-- C1 (counterexample): `report0` carries no top-level summary counter
and its maximal class-level line percentage is 0, yet the parsed total
line coverage is 50: the method-level counter, swept up by the final
document-wide counter scan, overrides the class maximum. -/
theorem c1_counterexample :
    topLevelCounters report0 = []
    ∧ classMax report0 "line" = 0
    ∧ (parse_report report0).total_line_coverage = 50 := by
  refine ⟨rfl, rfl, ?_⟩
  have h1 : (parse_report report0).total_line_coverage = pctOf counterR0 := rfl
  have h2 : coveredOf counterR0 = 1 := rfl
  have h3 : totalOf counterR0 = 2 := rfl
  rw [h1, pctOf, h2, h3]
  norm_num

theorem mem_collectGaps (root : XMLElem) (g : CoverageGap) :
    g ∈ collectGaps root ↔
      ∃ pkg ∈ findAllDesc root "package", ∃ cls ∈ findAllDesc pkg "class",
        ∃ m ∈ findAllDesc cls "method",
          getCoveragePercent m "line" < 100 ∧ g = gapOf (attrD pkg "name" "") cls m := by
  simp only [collectGaps, List.mem_flatMap, List.mem_filterMap]
  constructor
  · rintro ⟨pkg, hp, cls, hc, m, hm, hif⟩
    by_cases hlt : getCoveragePercent m "line" < 100
    · rw [if_pos hlt] at hif
      exact ⟨pkg, hp, cls, hc, m, hm, hlt, (Option.some_inj.mp hif).symm⟩
    · rw [if_neg hlt] at hif
      cases hif
  · rintro ⟨pkg, hp, cls, hc, m, hm, hlt, rfl⟩
    exact ⟨pkg, hp, cls, hc, m, hm, by rw [if_pos hlt]⟩

theorem parse_gaps_eq (root : XMLElem) :
    (parse_report root).gaps = (collectGaps root).insertionSort gapLE := rfl

/-- C3: a gap appears in the parsed result exactly for the traversed
methods whose own line-coverage percentage is strictly below 100; a method
at exactly 100% line coverage contributes no gap. -/
theorem c3_gap_membership (root : XMLElem) (g : CoverageGap) :
    g ∈ (parse_report root).gaps ↔
      ∃ pkg ∈ findAllDesc root "package", ∃ cls ∈ findAllDesc pkg "class",
        ∃ m ∈ findAllDesc cls "method",
          getCoveragePercent m "line" < 100 ∧ g = gapOf (attrD pkg "name" "") cls m := by
  rw [parse_gaps_eq, List.mem_insertionSort]
  exact mem_collectGaps root g

/-- C5: the parsed gap sequence is non-decreasing in line coverage, and
the sort is stable: for every coverage value `c`, the subsequence of gaps
with that exact coverage equals the corresponding subsequence of the
discovery-ordered gap list. -/
theorem c5_gaps_sorted_stable (root : XMLElem) :
    List.Pairwise (fun a b : CoverageGap => a.line_coverage ≤ b.line_coverage)
      (parse_report root).gaps
    ∧ ∀ c : ℚ,
        (parse_report root).gaps.filter (fun g => decide (g.line_coverage = c))
          = (collectGaps root).filter (fun g => decide (g.line_coverage = c)) := by
  constructor
  · rw [parse_gaps_eq]
    exact List.sorted_insertionSort gapLE (collectGaps root)
  · intro c
    rw [parse_gaps_eq]
    set l := collectGaps root with hl
    set p : CoverageGap → Bool := fun g => decide (g.line_coverage = c) with hp
    have hpair : (l.filter p).Pairwise gapLE := by
      apply List.pairwise_of_forall_mem_list
      intro a ha b hb
      have ha' := of_decide_eq_true (List.mem_filter.mp ha).2
      have hb' := of_decide_eq_true (List.mem_filter.mp hb).2
      rw [gapLE, ha', hb']
    have hsub : List.Sublist (l.filter p) (List.insertionSort gapLE l) :=
      List.sublist_insertionSort hpair (List.filter_sublist l)
    have hsub2 : List.Sublist (l.filter p) ((List.insertionSort gapLE l).filter p) := by
      have h1 := hsub.filter p
      have h2 : (l.filter p).filter p = l.filter p :=
        List.filter_eq_self.mpr (fun a ha => (List.mem_filter.mp ha).2)
      rwa [h2] at h1
    have hperm : List.Perm ((List.insertionSort gapLE l).filter p) (l.filter p) :=
      (List.perm_insertionSort gapLE l).filter p
    exact (List.Sublist.eq_of_length hsub2 hperm.length_eq.symm).symm

/-- C9 (amended): the `packageName` stored in a gap is the raw package
name attribute from the report — path-style separators are **not**
normalized there; only the fully-qualified class name has `/` rewritten to
`.`.  `c9_counterexample` refutes the claim's normalization of
`packageName`. -/
theorem c9_package_name_raw (root : XMLElem) (g : CoverageGap)
    (hg : g ∈ (parse_report root).gaps) :
    ∃ pkg ∈ findAllDesc root "package", ∃ cls ∈ findAllDesc pkg "class",
      g.package_name = attrD pkg "name" ""
      ∧ g.class_name
          = pyReplaceChar (attrD pkg "name" "" ++ "." ++ attrD cls "name" "") '/' '.' := by
  rw [parse_gaps_eq, List.mem_insertionSort] at hg
  rcases (mem_collectGaps root g).mp hg with ⟨pkg, hp, cls, hc, m, hm, hlt, rfl⟩
  exact ⟨pkg, hp, cls, hc, rfl, rfl⟩

/-- Witness for C9 (amended) on the concrete document `reportAcme`. -/
theorem c9_package_name_raw_witness :
    gapAcme ∈ (parse_report reportAcme).gaps
    ∧ ∃ pkg ∈ findAllDesc reportAcme "package", ∃ cls ∈ findAllDesc pkg "class",
        gapAcme.package_name = attrD pkg "name" ""
        ∧ gapAcme.class_name
            = pyReplaceChar (attrD pkg "name" "" ++ "." ++ attrD cls "name" "") '/' '.' := by
  have hmem : gapAcme ∈ (parse_report reportAcme).gaps := by
    rw [gaps_acme]
    exact List.mem_singleton.mpr rfl
  exact ⟨hmem, c9_package_name_raw reportAcme gapAcme hmem⟩

/-- C9 (counterexample): parsing the specification's own example document
(package `com/acme`) yields a gap whose `packageName` still contains the
path separator `/`, not the claimed dotted form, while the class name is
normalized. -/
theorem c9_counterexample :
    (parse_report reportAcme).gaps.map (fun g => g.package_name) = ["com/acme"]
    ∧ (parse_report reportAcme).gaps.map (fun g => g.class_name) = ["com.acme.Widget"]
    ∧ ("com/acme" : String) ≠ "com.acme" := by
  refine ⟨?_, ?_, by decide⟩
  · rw [gaps_acme]; rfl
  · rw [gaps_acme]; rfl

set_option maxRecDepth 4096 in
theorem genBodyC_decomp (m cn : String) :
    genBodyC m cn
      = "    @Test\n    public void "
        ++ ("test" ++ pyCapitalize m ++ "Case3")
        ++ ("() \x7b\n        " ++ cn ++ " instance = new " ++ cn
            ++ "();\n        instance." ++ m
            ++ "();\n        \n        Object result = instance;\n        assertNotNull(result);\n        assertTrue(result instanceof "
            ++ cn ++ ");\n    \x7d") := by
  apply String.ext
  rw [genBodyC]
  simp [String.data_append, List.append_assoc]

theorem generate_test_code_ge_two (gap : CoverageGap) (mname : String) (n : Nat)
    (hn : 2 ≤ n) :
    generate_test_code gap mname n
      = genBodyC (takeUntilChar mname '(') (lastDotSegment gap.class_name) := by
  rw [generate_test_code]
  rw [if_neg (by omega), if_neg (by omega)]

/-- C10: for one gap, all case indices at least 2 yield byte-identical
bodies (the variant-C template, whose embedded Java method name is the
fixed `test<Name>Case3`, with no underscore before `Case`), so the
generated entries at those indices agree on every field except
`testMethodName`. -/
theorem c10_variant_c_bodies (gap : CoverageGap) (mname : String) (i j : Nat)
    (hi : 2 ≤ i) (hj : 2 ≤ j) :
    (mkTest gap mname i).test_code = (mkTest gap mname j).test_code
    ∧ (mkTest gap mname i).class_name = (mkTest gap mname j).class_name
    ∧ (mkTest gap mname i).target_class = (mkTest gap mname j).target_class
    ∧ (mkTest gap mname i).target_method = (mkTest gap mname j).target_method
    ∧ (∃ s1 s2 : String, (mkTest gap mname i).test_code
          = s1 ++ ("test" ++ pyCapitalize (takeUntilChar mname '(') ++ "Case3") ++ s2)
    ∧ ("test" ++ pyCapitalize (takeUntilChar mname '(') ++ "Case3")
        ≠ (mkTest gap mname i).test_method_name := by
  have hcode : ∀ n : Nat, (mkTest gap mname n).test_code = generate_test_code gap mname n :=
    fun n => rfl
  refine ⟨?_, rfl, rfl, rfl, ?_, ?_⟩
  · rw [hcode, hcode, generate_test_code_ge_two gap mname i hi,
      generate_test_code_ge_two gap mname j hj]
  · exact ⟨"    @Test\n    public void ",
      "() \x7b\n        " ++ lastDotSegment gap.class_name ++ " instance = new "
        ++ lastDotSegment gap.class_name ++ "();\n        instance."
        ++ takeUntilChar mname '(' ++ "();\n        \n        Object result = instance;\n        assertNotNull(result);\n        assertTrue(result instanceof "
        ++ lastDotSegment gap.class_name ++ ");\n    \x7d",
      by rw [hcode, generate_test_code_ge_two gap mname i hi]; exact genBodyC_decomp _ _⟩
  · intro h
    have h' := congrArg String.data h
    simp only [mkTest, String.data_append, List.append_assoc] at h'
    have h2 := List.append_cancel_left h'
    have h3 := List.append_cancel_left h2
    simp only [List.cons_append] at h3
    injection h3 with h4 h5
    exact absurd h4 (by decide)

/-- Witness for C10 at concrete indices 2 and 5. -/
theorem c10_variant_c_bodies_witness :
    (2 ≤ 2 ∧ 2 ≤ 5)
    ∧ ((mkTest gapGetValue "getValue()V" 2).test_code
          = (mkTest gapGetValue "getValue()V" 5).test_code
        ∧ (mkTest gapGetValue "getValue()V" 2).class_name
            = (mkTest gapGetValue "getValue()V" 5).class_name
        ∧ (mkTest gapGetValue "getValue()V" 2).target_class
            = (mkTest gapGetValue "getValue()V" 5).target_class
        ∧ (mkTest gapGetValue "getValue()V" 2).target_method
            = (mkTest gapGetValue "getValue()V" 5).target_method
        ∧ (∃ s1 s2 : String, (mkTest gapGetValue "getValue()V" 2).test_code
              = s1 ++ ("test" ++ pyCapitalize (takeUntilChar "getValue()V" '(') ++ "Case3") ++ s2)
        ∧ ("test" ++ pyCapitalize (takeUntilChar "getValue()V" '(') ++ "Case3")
            ≠ (mkTest gapGetValue "getValue()V" 2).test_method_name) :=
  ⟨⟨by decide, by decide⟩,
    c10_variant_c_bodies gapGetValue "getValue()V" 2 5 (by decide) (by decide)⟩

theorem mem_firstOccur (l : List String) (a : String) : a ∈ firstOccur l ↔ a ∈ l := by
  induction l with
  | nil => simp [firstOccur]
  | cons k ks ih =>
      rw [firstOccur]
      simp only [List.mem_cons, List.mem_filter, ih, bne_iff_ne, ne_eq]
      constructor
      · rintro (rfl | ⟨h1, _⟩)
        · exact Or.inl rfl
        · exact Or.inr h1
      · rintro (rfl | h1)
        · exact Or.inl rfl
        · by_cases hak : a = k
          · exact Or.inl hak
          · exact Or.inr ⟨h1, hak⟩

theorem nodup_firstOccur (l : List String) : (firstOccur l).Nodup := by
  induction l with
  | nil => simp [firstOccur]
  | cons k ks ih =>
      rw [firstOccur]
      refine List.nodup_cons.mpr ⟨?_, ih.filter _⟩
      intro hk
      have h2 := (List.mem_filter.mp hk).2
      simp at h2

theorem find?_split {α : Type} (p : α → Bool) (l : List α) (a : α)
    (h : l.find? p = some a) :
    ∃ l1 l2, l = l1 ++ a :: l2 ∧ ∀ x ∈ l1, p x = false := by
  induction l with
  | nil => cases h
  | cons b l ih =>
      by_cases hb : p b
      · rw [List.find?_cons_of_pos _ hb] at h
        cases h
        exact ⟨[], l, rfl, by simp⟩
      · rw [List.find?_cons_of_neg _ hb] at h
        rcases ih h with ⟨l1, l2, rfl, hall⟩
        refine ⟨b :: l1, l2, rfl, ?_⟩
        intro x hx
        rcases List.mem_cons.mp hx with rfl | hx'
        · simpa using hb
        · exact hall x hx'

theorem pyDedupe_names (ts : List GeneratedTest) :
    (pyDedupe ts).map (fun t => t.test_method_name)
      = firstOccur (ts.map (fun t => t.test_method_name)) := by
  rw [pyDedupe]
  have gen : ∀ ks : List String,
      (∀ k ∈ ks, k ∈ ts.map (fun t => t.test_method_name)) →
      ((ks.filterMap (fun k => ts.reverse.find? (fun t => t.test_method_name == k))).map
        (fun t => t.test_method_name)) = ks := by
    intro ks
    induction ks with
    | nil => intro _; rfl
    | cons k ks ih =>
        intro h
        rcases List.mem_map.mp (h k (by simp)) with ⟨t, ht, hname⟩
        have hsome : (ts.reverse.find? (fun t => t.test_method_name == k)).isSome := by
          rw [List.find?_isSome]
          exact ⟨t, List.mem_reverse.mpr ht, by simp [hname]⟩
        rcases Option.isSome_iff_exists.mp hsome with ⟨u, hu⟩
        rw [List.filterMap_cons, hu, List.map_cons, ih (fun x hx => h x (by simp [hx]))]
        have hpu := List.find?_some hu
        have huk : u.test_method_name = k := by simpa using hpu
        rw [huk]
  exact gen _ (fun k hk => (mem_firstOccur _ k).mp hk)

theorem pyDedupe_last (ts : List GeneratedTest) (t : GeneratedTest)
    (ht : t ∈ pyDedupe ts) :
    ∃ pre post, ts = pre ++ t :: post
      ∧ ∀ u ∈ post, u.test_method_name ≠ t.test_method_name := by
  rw [pyDedupe] at ht
  rcases List.mem_filterMap.mp ht with ⟨k, hk, hfind⟩
  have hkt : t.test_method_name = k := by simpa using List.find?_some hfind
  rcases find?_split _ _ _ hfind with ⟨l1, l2, hsplit, hall⟩
  refine ⟨l2.reverse, l1.reverse, ?_, ?_⟩
  · have hts : ts = (l1 ++ t :: l2).reverse := by
      rw [← hsplit, List.reverse_reverse]
    rw [hts, List.reverse_append, List.reverse_cons, List.append_assoc]
    simp
  · intro u hu
    have hfalse := hall u (List.mem_reverse.mp hu)
    intro hequ
    rw [hequ, hkt] at hfalse
    simp at hfalse

/-- C8: `format_test_file` wraps, in the fixed document template, the
bodies of the de-duplicated tests joined by one blank line (`\n\n`); the
surviving names are the distinct input names in order of first insertion;
each survivor is the last input occurrence of its name; and an empty test
list yields the complete document with an empty body region. -/
theorem c8_format_test_file (cls pkg : String) (ts : List GeneratedTest) :
    format_test_file cls pkg ts
      = fileHeader pkg cls
        ++ String.intercalate "\n\n" ((pyDedupe ts).map (fun t => t.test_code))
        ++ fileFooter
    ∧ (pyDedupe ts).map (fun t => t.test_method_name)
        = firstOccur (ts.map (fun t => t.test_method_name))
    ∧ (∀ t ∈ pyDedupe ts, ∃ pre post, ts = pre ++ t :: post
        ∧ ∀ u ∈ post, u.test_method_name ≠ t.test_method_name)
    ∧ ((pyDedupe ts).map (fun t => t.test_method_name)).Nodup
    ∧ (∀ t ∈ ts, ∃ u ∈ pyDedupe ts, u.test_method_name = t.test_method_name)
    ∧ format_test_file cls pkg [] = fileHeader pkg cls ++ fileFooter := by
  refine ⟨rfl, pyDedupe_names ts, pyDedupe_last ts, ?_, ?_, ?_⟩
  · rw [pyDedupe_names]
    exact nodup_firstOccur _
  · intro t ht
    have hmem : t.test_method_name ∈ firstOccur (ts.map (fun t => t.test_method_name)) :=
      (mem_firstOccur _ _).mpr (List.mem_map_of_mem _ ht)
    rw [← pyDedupe_names] at hmem
    rcases List.mem_map.mp hmem with ⟨u, hu, hname⟩
    exact ⟨u, hu, hname⟩
  · rw [format_test_file]
    simp [pyDedupe, firstOccur, String.intercalate]

/-- Witness for C8 at a concrete call with a duplicated method name:
the later of two tests sharing a name survives. -/
theorem c8_format_test_file_witness :
    (pyDedupe [mkTest gapGetValue "getValue()V" 0]).map (fun t => t.test_method_name)
      = firstOccur ([mkTest gapGetValue "getValue()V" 0].map (fun t => t.test_method_name)) :=
  (c8_format_test_file "WidgetTest" "com.acme" [mkTest gapGetValue "getValue()V" 0]).2.1
